import Mathlib

/-!
Verification of the intent-resolution and structured-action pipeline of
api/agent.py (AI-Student-Planner-Coach).

The Python code manipulates JSON values produced by json.loads, so the
development starts from a JSON value type and a model of json.loads
(recursive-descent over the character list, with fuel for the nested
containers).  Python floats are modelled as rationals (their decimal
literals), which is enough because no claim computes with them; NaN and
Infinity (a json.loads extension) and unicode escapes are not modelled.
Python dicts are modelled as association lists without repeated keys:
setField updates an existing key in place (keeping its position, as a
Python dict does) and appends a fresh one.
-/

inductive Json where
  | null
  | bool (b : Bool)
  | int (n : Int)
  | float (q : Rat)
  | str (s : String)
  | arr (elems : List Json)
  | obj (fields : List (String × Json))

/-- Python dict read: the value stored at key `k`, if any. -/
def lookupField : List (String × Json) → String → Option Json
  | [], _ => none
  | (k2, v) :: rest, k => if k2 = k then some v else lookupField rest k

/-- Python dict write `d[k] = v`: replace in place, or append a fresh key. -/
def setField (k : String) (v : Json) : List (String × Json) → List (String × Json)
  | [] => [(k, v)]
  | (k2, v2) :: rest => if k2 = k then (k, v) :: rest else (k2, v2) :: setField k v rest

/-- Python dict delete `del d[k]`. -/
def eraseField (k : String) (fields : List (String × Json)) : List (String × Json) :=
  fields.filter (fun kv => kv.1 != k)

/-- The whitespace json.loads skips between tokens. -/
def isJsonWs (c : Char) : Bool :=
  c = ' ' || c = '\t' || c = '\n' || c = '\r'

def skipWs : List Char → List Char
  | [] => []
  | c :: cs => if isJsonWs c then skipWs cs else c :: cs

/-- Decoding of a two-character escape inside a JSON string (\u escapes are
not modelled; an unknown escape is kept as the escaped character). -/
def escChar (c : Char) : Char :=
  if c = 'n' then '\n'
  else if c = 't' then '\t'
  else if c = 'r' then '\r'
  else if c = 'b' then '\x08'
  else if c = 'f' then '\x0c'
  else c

/-- Body of a JSON string, after the opening quote: the decoded characters
and the remaining input after the closing quote. -/
def parseStringBody : List Char → Option (List Char × List Char)
  | [] => none
  | c :: cs =>
    if c = '"' then some ([], cs)
    else if c = '\\' then
      match cs with
      | [] => none
      | e :: cs2 =>
        match parseStringBody cs2 with
        | some (s, rest) => some (escChar e :: s, rest)
        | none => none
    else
      match parseStringBody cs with
      | some (s, rest) => some (c :: s, rest)
      | none => none

def digitsToNat (ds : List Char) : Nat :=
  ds.foldl (fun acc c => acc * 10 + (c.toNat - 48)) 0

def takeDigits (cs : List Char) : List Char × List Char :=
  cs.span Char.isDigit

/-- JSON integer-part grammar: a single 0, or digits with no leading zero. -/
def validIntDigits : List Char → Bool
  | [] => false
  | c :: rest => if c = '0' then rest.isEmpty else true

def applySign (neg : Bool) (q : Rat) : Rat := if neg then -q else q

/-- Optional exponent then the finished number token.  `isFloat` records
whether a fraction part was seen; an exponent also makes the value a float,
exactly as json.loads produces a Python float for either. -/
def finishNumber (neg : Bool) (intPart : Nat) (mant : Rat) (isFloat : Bool)
    (cs : List Char) : Option (Json × List Char) :=
  let plain : Json :=
    if isFloat then Json.float (applySign neg mant)
    else Json.int (if neg then -(intPart : Int) else (intPart : Int))
  match cs with
  | c :: cs2 =>
    if c = 'e' || c = 'E' then
      let (esign, cs3) :=
        match cs2 with
        | d :: rest => if d = '-' then (true, rest) else if d = '+' then (false, rest) else (false, cs2)
        | [] => (false, cs2)
      let (eds, cs4) := takeDigits cs3
      if eds.isEmpty then none
      else
        let e := digitsToNat eds
        let scaled := if esign then mant / ((10 : Rat) ^ e) else mant * ((10 : Rat) ^ e)
        some (Json.float (applySign neg scaled), cs4)
    else some (plain, cs)
  | [] => some (plain, cs)

/-- A JSON number starting at the current position (sign, integer part,
optional fraction, optional exponent). -/
def parseNumber (cs : List Char) : Option (Json × List Char) :=
  let (neg, cs1) :=
    match cs with
    | c :: rest => if c = '-' then (true, rest) else (false, cs)
    | [] => (false, cs)
  let (ds, cs2) := takeDigits cs1
  if validIntDigits ds then
    let intPart := digitsToNat ds
    match cs2 with
    | '.' :: cs3 =>
      let (fs, cs4) := takeDigits cs3
      if fs.isEmpty then none
      else
        let mant : Rat := (intPart : Rat) + (digitsToNat fs : Rat) / ((10 : Rat) ^ fs.length)
        finishNumber neg intPart mant true cs4
    | _ => finishNumber neg intPart (intPart : Rat) false cs2
  else none

mutual

/-- One JSON value starting at the current (non-whitespace) position, in the
shape json.loads accepts; returns the value and the unconsumed input. -/
def parseValue : Nat → List Char → Option (Json × List Char)
  | 0, _ => none
  | _ + 1, [] => none
  | fuel + 1, c :: cs =>
    if c = '{' then
      match skipWs cs with
      | '}' :: rest => some (Json.obj [], rest)
      | cs2 => parseObjMembers fuel [] cs2
    else if c = '[' then
      match skipWs cs with
      | ']' :: rest => some (Json.arr [], rest)
      | cs2 => parseArrElems fuel [] cs2
    else if c = '"' then
      match parseStringBody cs with
      | some (s, rest) => some (Json.str (String.mk s), rest)
      | none => none
    else if c = 't' then
      match cs with
      | 'r' :: 'u' :: 'e' :: rest => some (Json.bool true, rest)
      | _ => none
    else if c = 'f' then
      match cs with
      | 'a' :: 'l' :: 's' :: 'e' :: rest => some (Json.bool false, rest)
      | _ => none
    else if c = 'n' then
      match cs with
      | 'u' :: 'l' :: 'l' :: rest => some (Json.null, rest)
      | _ => none
    else if c = '-' || c.isDigit then parseNumber (c :: cs)
    else none

/-- Members of an object after at least one is required; a repeated key is
stored with the Python-dict last-wins rule via setField. -/
def parseObjMembers : Nat → List (String × Json) → List Char → Option (Json × List Char)
  | 0, _, _ => none
  | fuel + 1, acc, cs =>
    match cs with
    | '"' :: cs1 =>
      match parseStringBody cs1 with
      | some (k, cs2) =>
        match skipWs cs2 with
        | ':' :: cs3 =>
          match parseValue fuel (skipWs cs3) with
          | some (v, cs4) =>
            let acc2 := setField (String.mk k) v acc
            match skipWs cs4 with
            | ',' :: cs5 => parseObjMembers fuel acc2 (skipWs cs5)
            | '}' :: cs5 => some (Json.obj acc2, cs5)
            | _ => none
          | none => none
        | _ => none
      | none => none
    | _ => none

/-- Elements of an array after at least one is required. -/
def parseArrElems : Nat → List Json → List Char → Option (Json × List Char)
  | 0, _, _ => none
  | fuel + 1, acc, cs =>
    match parseValue fuel cs with
    | some (v, cs2) =>
      match skipWs cs2 with
      | ',' :: cs3 => parseArrElems fuel (acc ++ [v]) (skipWs cs3)
      | ']' :: cs3 => some (Json.arr (acc ++ [v]), cs3)
      | _ => none
    | none => none

end

/-- Model of Python json.loads: skip leading whitespace, read one value,
allow only trailing whitespace.  The fuel is computed from the trimmed
input, so that loading a whitespace-trimmed text is literally the same
computation. -/
def jsonLoads (cs : List Char) : Option Json :=
  let s := skipWs cs
  match parseValue (s.length + 1) s with
  | some (v, rest) => if (skipWs rest).isEmpty then some v else none
  | none => none

def jsonLoadsStr (s : String) : Option Json :=
  jsonLoads s.toList

example : jsonLoadsStr " \x7b\"a\": 1, \"b\": [true, null]\x7d " =
    some (Json.obj [("a", Json.int 1), ("b", Json.arr [Json.bool true, Json.null])]) := by
  rfl

example : jsonLoadsStr "\x7b\"a\":1\x7d more" = none := by rfl

example : jsonLoadsStr "[1, -3]" =
    some (Json.arr [Json.int 1, Json.int (-3)]) := by rfl

/-- First occurrence of `target` and the text from it on: Python str.find
followed by the slice text[idx:] (handle_agent_request lines 498-503). -/
def suffixFromChar (target : Char) : List Char → Option (List Char)
  | [] => none
  | c :: cs => if c = target then some (c :: cs) else suffixFromChar target cs

/-- Brace-depth scan of handle_agent_request (lines 511-520): walk the text
counting braces (string contents included, as the Python loop does) and
return the exclusive end position where the depth first returns to zero on
a closing brace; none when the loop completes without that happening, which
is the unbalanced-braces error path of line 522. -/
def braceScan : Nat → Int → List Char → Option Nat
  | _, _, [] => none
  | i, depth, c :: cs =>
    if c = '{' then braceScan (i + 1) (depth + 1) cs
    else if c = '}' then
      if depth - 1 = 0 then some (i + 1) else braceScan (i + 1) (depth - 1) cs
    else braceScan (i + 1) depth cs

/-- Object extraction of handle_agent_request (lines 497-531): take the text
from its first opening brace, try json.loads on it, and on failure retry on
the prefix ending where brace depth returns to zero. -/
def extractJsonObject (aiContent : String) : Except String Json :=
  match suffixFromChar '{' aiContent.toList with
  | none => Except.error "AI response did not contain valid JSON."
  | some jsonContent =>
    match jsonLoads jsonContent with
    | some v => Except.ok v
    | none =>
      match braceScan 0 0 jsonContent with
      | none => Except.error "AI response contained malformed JSON."
      | some endPos =>
        match jsonLoads (jsonContent.take endPos) with
        | some v => Except.ok v
        | none => Except.error "AI response contained malformed JSON."

theorem skipWs_idem (cs : List Char) : skipWs (skipWs cs) = skipWs cs := by
  induction cs with
  | nil => rfl
  | cons c cs ih =>
    by_cases h : isJsonWs c
    · simp [skipWs, h, ih]
    · simp [skipWs, h]

theorem skipWs_decomp (cs : List Char) :
    ∃ pre, cs = pre ++ skipWs cs ∧ ∀ c ∈ pre, isJsonWs c = true := by
  induction cs with
  | nil => exact ⟨[], rfl, by simp⟩
  | cons c cs ih =>
    by_cases h : isJsonWs c
    · obtain ⟨pre, h1, h2⟩ := ih
      refine ⟨c :: pre, ?_, ?_⟩
      · simpa [skipWs, h] using congrArg (c :: ·) h1
      · intro d hd
        rcases List.mem_cons.mp hd with hd | hd
        · exact hd ▸ h
        · exact h2 d hd
    · exact ⟨[], by simp [skipWs, h], by simp⟩

theorem suffixFromChar_ws_prefix (pre rest : List Char)
    (hpre : ∀ c ∈ pre, isJsonWs c = true) (tail : List Char)
    (hhead : rest = '{' :: tail) :
    suffixFromChar '{' (pre ++ rest) = some rest := by
  induction pre with
  | nil => subst hhead; simp [suffixFromChar]
  | cons c pre ih =>
    have hc : isJsonWs c = true := hpre c (by simp)
    have hne : c ≠ '{' := by
      intro hc2
      subst hc2
      exact absurd hc (by decide)
    simp only [List.cons_append, suffixFromChar, if_neg hne]
    exact ih (fun d hd => hpre d (by simp [hd]))

theorem parseArrElems_shape (fuel : Nat) : ∀ acc cs v rest,
    parseArrElems fuel acc cs = some (v, rest) → ∃ l, v = Json.arr l := by
  induction fuel with
  | zero => intro acc cs v rest h; simp [parseArrElems] at h
  | succ f ih =>
    intro acc cs v rest h
    unfold parseArrElems at h
    split at h
    · split at h
      · exact ih _ _ _ _ h
      · simp only [Option.some.injEq, Prod.mk.injEq] at h
        exact ⟨_, h.1.symm⟩
      · simp at h
    · simp at h

theorem finishNumber_shape (neg : Bool) (intPart : Nat) (mant : Rat) (isFloat : Bool)
    (cs : List Char) (v : Json) (rest : List Char)
    (h : finishNumber neg intPart mant isFloat cs = some (v, rest)) :
    (∃ n, v = Json.int n) ∨ (∃ q, v = Json.float q) := by
  unfold finishNumber at h
  by_cases hf : isFloat <;>
    simp only [hf, if_true, if_false] at h <;>
    · split at h
      · split at h
        · split at h
          · simp at h
          · simp only [Option.some.injEq, Prod.mk.injEq] at h
            exact Or.inr ⟨_, h.1.symm⟩
        · simp only [Option.some.injEq, Prod.mk.injEq] at h
          first
            | exact Or.inr ⟨_, h.1.symm⟩
            | exact Or.inl ⟨_, h.1.symm⟩
      · simp only [Option.some.injEq, Prod.mk.injEq] at h
        first
          | exact Or.inr ⟨_, h.1.symm⟩
          | exact Or.inl ⟨_, h.1.symm⟩

theorem parseNumber_shape (cs : List Char) (v : Json) (rest : List Char)
    (h : parseNumber cs = some (v, rest)) :
    (∃ n, v = Json.int n) ∨ (∃ q, v = Json.float q) := by
  unfold parseNumber at h
  repeat' split at h
  all_goals
    first
      | exact finishNumber_shape _ _ _ _ _ _ _ h
      | simp at h

theorem parseValue_cons (f : Nat) (c : Char) (cs : List Char) :
    parseValue (f + 1) (c :: cs) =
      (if c = '{' then
        match skipWs cs with
        | '}' :: rest => some (Json.obj [], rest)
        | cs2 => parseObjMembers f [] cs2
      else if c = '[' then
        match skipWs cs with
        | ']' :: rest => some (Json.arr [], rest)
        | cs2 => parseArrElems f [] cs2
      else if c = '"' then
        match parseStringBody cs with
        | some (s, rest) => some (Json.str (String.mk s), rest)
        | none => none
      else if c = 't' then
        match cs with
        | 'r' :: 'u' :: 'e' :: rest => some (Json.bool true, rest)
        | _ => none
      else if c = 'f' then
        match cs with
        | 'a' :: 'l' :: 's' :: 'e' :: rest => some (Json.bool false, rest)
        | _ => none
      else if c = 'n' then
        match cs with
        | 'u' :: 'l' :: 'l' :: rest => some (Json.null, rest)
        | _ => none
      else if c = '-' || c.isDigit then parseNumber (c :: cs)
      else none) := rfl

theorem parseValue_obj_head : ∀ (fuel : Nat) (cs : List Char) (m : List (String × Json))
    (rest : List Char), parseValue fuel cs = some (Json.obj m, rest) →
    ∃ cs2, cs = '{' :: cs2 := by
  intro fuel cs m rest h
  cases fuel with
  | zero => exact absurd h (by simp [show parseValue 0 cs = none from rfl])
  | succ f =>
    cases cs with
    | nil => exact absurd h (by simp [show parseValue (f + 1) [] = none from rfl])
    | cons c cs =>
      by_cases h1 : c = '{'
      · exact ⟨cs, by rw [h1]⟩
      · exfalso
        rw [parseValue_cons, if_neg h1] at h
        repeat' split at h
        all_goals
          first
            | simp at h
            | (obtain ⟨l, hl⟩ := parseArrElems_shape _ _ _ _ _ h; simp at hl)
            | (rcases parseNumber_shape _ _ _ h with ⟨n, hn⟩ | ⟨q, hq⟩ <;> simp_all)

/-- C3: the object-extraction step of handle_agent_request is idempotent on
already-clean JSON (any text that json.loads accepts as an object extracts
to exactly the loaded value), and it recovers the object from both the
prose-wrapped and the markdown-fenced example texts. -/
theorem response_extractor_idempotent_and_recovers :
    (∀ (t : String) (m : List (String × Json)),
        jsonLoadsStr t = some (Json.obj m) →
        extractJsonObject t = Except.ok (Json.obj m))
    ∧ extractJsonObject "here is your answer: \x7b\"a\":1\x7d thanks!" =
        Except.ok (Json.obj [("a", Json.int 1)])
    ∧ extractJsonObject "```json\n\x7b\"a\":1\x7d\n```" =
        Except.ok (Json.obj [("a", Json.int 1)]) := by
  refine ⟨?_, by rfl, by rfl⟩
  intro t m h
  have hps : ∃ rest, parseValue ((skipWs t.toList).length + 1) (skipWs t.toList) =
      some (Json.obj m, rest) ∧ (skipWs rest).isEmpty = true := by
    simp only [jsonLoadsStr, jsonLoads] at h
    split at h
    · next v rest heq =>
      split at h
      · next hemp =>
        have hv := Option.some.inj h
        subst hv
        exact ⟨rest, heq, hemp⟩
      · simp at h
    · simp at h
  obtain ⟨rest, heq, hemp⟩ := hps
  obtain ⟨cs2, hhead⟩ := parseValue_obj_head _ _ _ _ heq
  obtain ⟨pre, hdec, hws⟩ := skipWs_decomp t.toList
  have hload : jsonLoads (skipWs t.toList) = some (Json.obj m) := by
    simp only [jsonLoads, skipWs_idem, heq, hemp, if_true]
  unfold extractJsonObject
  rw [hdec, suffixFromChar_ws_prefix pre (skipWs t.toList) hws cs2 hhead]
  simp [show jsonLoads (skipWs t.data) = some (Json.obj m) from hload]

/-- Witness for C3: the idempotence clause applied at a concrete clean JSON
object text. -/
theorem response_extractor_idempotent_witness :
    extractJsonObject " \x7b\"ok\": true\x7d" = Except.ok (Json.obj [("ok", Json.bool true)]) :=
  response_extractor_idempotent_and_recovers.1 " \x7b\"ok\": true\x7d"
    [("ok", Json.bool true)] (by rfl)

/-- The ASCII whitespace stripped by Python str.strip(). -/
def isPySpace (c : Char) : Bool :=
  c = ' ' || c = '\t' || c = '\n' || c = '\r' || c = '\x0b' || c = '\x0c'

/-- Python str.strip(). -/
def pyStrip (cs : List Char) : List Char :=
  ((cs.dropWhile isPySpace).reverse.dropWhile isPySpace).reverse

/-- Fence cleaning of generate_learning_milestones (lines 219-228): strip,
drop a leading three-backtick-json or bare three-backtick marker, drop a
trailing three-backtick marker, strip again. -/
def cleanFences (cs : List Char) : List Char :=
  let s1 := pyStrip cs
  let s2 :=
    if List.isPrefixOf ("```json".toList) s1 then s1.drop 7
    else if List.isPrefixOf ("```".toList) s1 then s1.drop 3
    else s1
  let s3 := if List.isSuffixOf ("```".toList) s2 then s2.take (s2.length - 3) else s2
  pyStrip s3

/-- The milestone response handling of generate_learning_milestones (lines
215-241): strip the model text, clean fences, json.loads the whole of what
remains, and require a list.  There is no bracket search or depth scan on
this path. -/
def extractMilestoneArray (content : String) : Except String (List Json) :=
  let cleaned := cleanFences (pyStrip content.toList)
  match jsonLoads cleaned with
  | some (Json.arr ms) => Except.ok ms
  | some _ => Except.error "Expected a list of milestones"
  | none => Except.error "Failed to parse learning plan"

/-- C9 counterexample: a syntactically valid JSON array preceded by leading
prose makes milestone extraction fail outright — the array path of the
extractor has no first-bracket search and no bracket-depth recovery. -/
theorem milestone_array_prose_not_recovered :
    jsonLoadsStr "[1, 2]" = some (Json.arr [Json.int 1, Json.int 2])
    ∧ extractMilestoneArray "Here are the milestones: [1, 2]" =
        Except.error "Failed to parse learning plan" := ⟨rfl, rfl⟩

/-- C9 (amended): on the milestone path only markdown fences and whitespace
are removed and the whole remaining text must parse; any text whose cleaned
form json.loads rejects is a parse error (no recovery), while a fenced
array is recovered. -/
theorem milestone_array_extraction_behaviour :
    (∀ t, jsonLoads (cleanFences (pyStrip t.toList)) = none →
        extractMilestoneArray t = Except.error "Failed to parse learning plan")
    ∧ extractMilestoneArray "```json\n[1, 2]\n```" =
        Except.ok [Json.int 1, Json.int 2] := by
  refine ⟨?_, by rfl⟩
  intro t h
  simp only [extractMilestoneArray]
  rw [h]

/-- Witness for C9 (amended): a concrete prose-only text fails as a parse
error. -/
theorem milestone_array_extraction_witness :
    extractMilestoneArray "milestones to follow" =
      Except.error "Failed to parse learning plan" :=
  milestone_array_extraction_behaviour.1 "milestones to follow" (by rfl)

/-- The acceptable-type alternatives of the required_fields mapping of
generate_learning_milestones (lines 244-254). -/
inductive FieldType where
  | intType
  | strType
  | listType
  | intOrFloat
deriving DecidableEq

/-- The required_fields dict of generate_learning_milestones (lines
244-254), in its Python insertion order. -/
def requiredFields : List (String × FieldType) :=
  [("week", FieldType.intType),
   ("title", FieldType.strType),
   ("description", FieldType.strType),
   ("topics_covered", FieldType.listType),
   ("learning_objectives", FieldType.listType),
   ("tasks", FieldType.listType),
   ("resources", FieldType.listType),
   ("tips", FieldType.listType),
   ("estimated_hours", FieldType.intOrFloat)]

/-- Python isinstance for the types used by the validator.  A Python bool is
an instance of int, so it passes the int and the int-or-float checks. -/
def isInstanceOf (v : Json) (t : FieldType) : Bool :=
  match t, v with
  | FieldType.intType, Json.int _ => true
  | FieldType.intType, Json.bool _ => true
  | FieldType.strType, Json.str _ => true
  | FieldType.listType, Json.arr _ => true
  | FieldType.intOrFloat, Json.int _ => true
  | FieldType.intOrFloat, Json.float _ => true
  | FieldType.intOrFloat, Json.bool _ => true
  | _, _ => false

def missingMsg (f : String) (i : Nat) : String :=
  "Missing required field: " ++ f ++ " in milestone " ++ toString (i + 1)

/-- The Python type-error message also appends the expected and found Python
type reprs, which are not modelled. -/
def invalidTypeMsg (f : String) (i : Nat) : String :=
  "Invalid type for " ++ f ++ " in milestone " ++ toString (i + 1)

/-- The inner field loop of generate_learning_milestones (lines 257-261) for
milestone number i: the first missing or mistyped required field raises. -/
def checkFieldList (i : Nat) (fields : List (String × Json)) :
    List (String × FieldType) → Except String Unit
  | [] => Except.ok ()
  | (f, ty) :: rest =>
    match lookupField fields f with
    | none => Except.error (missingMsg f i)
    | some v =>
      if isInstanceOf v ty then checkFieldList i fields rest
      else Except.error (invalidTypeMsg f i)

/-- One iteration of the outer loop at line 256.  A non-dict milestone makes
the Python membership test or subscript raise a TypeError, aborting
generation, so it is modelled as an error. -/
def checkMilestone (i : Nat) : Json → Except String Unit
  | Json.obj fields => checkFieldList i fields requiredFields
  | _ => Except.error ("Milestone " ++ toString (i + 1) ++ " is not an object")

def validateFrom (i : Nat) : List Json → Except String Unit
  | [] => Except.ok ()
  | m :: rest =>
    match checkMilestone i m with
    | Except.ok _ => validateFrom (i + 1) rest
    | Except.error e => Except.error e

/-- The milestone validation of generate_learning_milestones (lines
243-263). -/
def validateMilestones (ms : List Json) : Except String Unit :=
  validateFrom 0 ms

/-- Acceptance in the words of the claim: every element carries all nine
required fields with an acceptable type. -/
def milestoneOk (m : Json) : Prop :=
  ∃ fields, m = Json.obj fields ∧
    ∀ p ∈ requiredFields, ∃ v, lookupField fields p.1 = some v ∧ isInstanceOf v p.2 = true

/-- Removal of one field from one milestone (for the flip-to-rejection part
of the claim); a non-object value is left alone. -/
def removeMilestoneField (f : String) : Json → Json
  | Json.obj fields => Json.obj (eraseField f fields)
  | m => m

def sampleMilestone : Json :=
  Json.obj [("week", Json.int 1), ("title", Json.str "Week 1: Basics"),
    ("description", Json.str "Fundamentals"),
    ("topics_covered", Json.arr [Json.str "history"]),
    ("learning_objectives", Json.arr [Json.str "define terms"]),
    ("tasks", Json.arr [Json.str "read intro (2h)"]),
    ("estimated_hours", Json.int 8),
    ("tips", Json.arr [Json.str "practice"]),
    ("resources", Json.arr [Json.str "a book"])]

example : validateMilestones [sampleMilestone] = Except.ok () := by rfl

example : validateMilestones [Json.obj [("week", Json.str "one")]] =
    Except.error (invalidTypeMsg "week" 0) := by rfl

theorem lookupField_eraseField_self (fields : List (String × Json)) (f : String) :
    lookupField (eraseField f fields) f = none := by
  induction fields with
  | nil => rfl
  | cons kv rest ih =>
    obtain ⟨k, v⟩ := kv
    by_cases h : k = f
    · simpa [eraseField, List.filter_cons, h] using ih
    · simpa [eraseField, List.filter_cons, h, lookupField] using ih

theorem lookupField_eraseField_ne (fields : List (String × Json)) (f g : String)
    (hne : g ≠ f) : lookupField (eraseField f fields) g = lookupField fields g := by
  induction fields with
  | nil => rfl
  | cons kv rest ih =>
    obtain ⟨k, v⟩ := kv
    by_cases h : k = f
    · have hkg : k ≠ g := fun hk => hne (hk ▸ h)
      calc lookupField (eraseField f ((k, v) :: rest)) g
          = lookupField (eraseField f rest) g := by
            simp [eraseField, List.filter_cons, h]
        _ = lookupField rest g := ih
        _ = lookupField ((k, v) :: rest) g := by simp [lookupField, hkg]
    · by_cases hkg : k = g
      · simp [eraseField, List.filter_cons, h, lookupField, hkg, hne]
      · calc lookupField (eraseField f ((k, v) :: rest)) g
            = lookupField (eraseField f rest) g := by
              simp [eraseField, List.filter_cons, h, lookupField, hkg]
          _ = lookupField rest g := ih
          _ = lookupField ((k, v) :: rest) g := by simp [lookupField, hkg]

theorem checkFieldList_ok_iff (i : Nat) (fields : List (String × Json)) :
    ∀ (l : List (String × FieldType)),
    (checkFieldList i fields l = Except.ok () ↔
      ∀ p ∈ l, ∃ v, lookupField fields p.1 = some v ∧ isInstanceOf v p.2 = true) := by
  intro l
  induction l with
  | nil => simp [checkFieldList]
  | cons p rest ih =>
    obtain ⟨f, ty⟩ := p
    constructor
    · intro h q hq
      rcases List.mem_cons.mp hq with hq | hq
      · subst hq
        unfold checkFieldList at h
        split at h
        · simp at h
        · next v hv =>
          split at h
          · exact ⟨v, hv, by assumption⟩
          · simp at h
      · unfold checkFieldList at h
        split at h
        · simp at h
        · split at h
          · exact (ih.mp h) q hq
          · simp at h
    · intro h
      obtain ⟨v, hv, hty⟩ := h (f, ty) (by simp)
      have hv2 : lookupField fields f = some v := hv
      have hty2 : isInstanceOf v ty = true := hty
      have hstep : checkFieldList i fields ((f, ty) :: rest) =
          (match lookupField fields f with
           | none => Except.error (missingMsg f i)
           | some v2 => if isInstanceOf v2 ty then checkFieldList i fields rest
                        else Except.error (invalidTypeMsg f i)) := rfl
      rw [hstep, hv2]
      simp only [hty2, if_true]
      exact ih.mpr (fun q hq => h q (by simp [hq]))

theorem checkMilestone_ok_iff (i : Nat) (m : Json) :
    checkMilestone i m = Except.ok () ↔ milestoneOk m := by
  cases m with
  | obj fields =>
    simp only [checkMilestone, milestoneOk]
    rw [checkFieldList_ok_iff i fields requiredFields]
    constructor
    · intro h; exact ⟨fields, rfl, h⟩
    · rintro ⟨fields2, heq, h⟩
      cases heq
      exact h
  | null => simp [checkMilestone, milestoneOk]
  | bool b => simp [checkMilestone, milestoneOk]
  | int n => simp [checkMilestone, milestoneOk]
  | float q => simp [checkMilestone, milestoneOk]
  | str s => simp [checkMilestone, milestoneOk]
  | arr l => simp [checkMilestone, milestoneOk]

theorem validateFrom_ok_iff (ms : List Json) : ∀ (k : Nat),
    (validateFrom k ms = Except.ok () ↔ ∀ m ∈ ms, milestoneOk m) := by
  induction ms with
  | nil => intro k; simp [validateFrom]
  | cons m rest ih =>
    intro k
    cases hc : checkMilestone k m with
    | error e =>
      simp only [validateFrom, hc]
      constructor
      · intro h; simp at h
      · intro h
        have hm := (checkMilestone_ok_iff k m).mpr (h m (by simp))
        rw [hm] at hc
        simp at hc
    | ok u =>
      simp only [validateFrom, hc]
      have hm : milestoneOk m := (checkMilestone_ok_iff k m).mp (by rw [hc])
      rw [ih (k + 1)]
      constructor
      · intro h x hx
        rcases List.mem_cons.mp hx with hx | hx
        · exact hx ▸ hm
        · exact h x hx
      · intro h x hx
        exact h x (by simp [hx])

theorem checkFieldList_erase (i : Nat) (fields : List (String × Json)) (f : String)
    (ty : FieldType) : ∀ (l : List (String × FieldType)), (f, ty) ∈ l →
    checkFieldList i fields l = Except.ok () →
    checkFieldList i (eraseField f fields) l = Except.error (missingMsg f i) := by
  intro l
  induction l with
  | nil => intro h; simp at h
  | cons p rest ih =>
    obtain ⟨g, ty2⟩ := p
    intro hmem hok
    by_cases hg : g = f
    · subst hg
      have hstep : checkFieldList i (eraseField g fields) ((g, ty2) :: rest) =
          (match lookupField (eraseField g fields) g with
           | none => Except.error (missingMsg g i)
           | some v2 => if isInstanceOf v2 ty2 then checkFieldList i (eraseField g fields) rest
                        else Except.error (invalidTypeMsg g i)) := rfl
      rw [hstep, lookupField_eraseField_self]
    · have hstep : ∀ (fs : List (String × Json)), checkFieldList i fs ((g, ty2) :: rest) =
          (match lookupField fs g with
           | none => Except.error (missingMsg g i)
           | some v2 => if isInstanceOf v2 ty2 then checkFieldList i fs rest
                        else Except.error (invalidTypeMsg g i)) := fun _ => rfl
      rw [hstep] at hok ⊢
      rcases hv : lookupField fields g with _ | v
      · rw [hv] at hok
        simp at hok
      · simp only [hv] at hok
        simp only [lookupField_eraseField_ne fields f g hg, hv]
        by_cases hty : isInstanceOf v ty2
        · simp only [hty, if_true] at hok ⊢
          have hmem2 : (f, ty) ∈ rest := by
            rcases List.mem_cons.mp hmem with h2 | h2
            · exact absurd (congrArg Prod.fst h2) (by simpa using fun hh => hg hh.symm)
            · exact h2
          exact ih hmem2 hok
        · rw [if_neg hty] at hok
          simp at hok

theorem validateFrom_append_ok : ∀ (pre : List Json) (k : Nat) (m : Json) (post : List Json),
    validateFrom k (pre ++ m :: post) = Except.ok () →
    checkMilestone (k + pre.length) m = Except.ok () := by
  intro pre
  induction pre with
  | nil =>
    intro k m post h
    simp only [List.nil_append, validateFrom] at h
    rw [List.length_nil, Nat.add_zero]
    cases hc : checkMilestone k m with
    | error e => rw [hc] at h; simp at h
    | ok u => rfl
  | cons p pre ih =>
    intro k m post h
    simp only [List.cons_append, validateFrom] at h
    cases hc : checkMilestone k p with
    | error e => rw [hc] at h; simp at h
    | ok u =>
      rw [hc] at h
      have := ih (k + 1) m post h
      rw [show k + (p :: pre).length = (k + 1) + pre.length from by
        simp [List.length_cons]; omega]
      exact this

theorem validateFrom_mod : ∀ (pre : List Json) (k : Nat) (m m2 : Json) (post : List Json)
    (e : String), validateFrom k (pre ++ m :: post) = Except.ok () →
    checkMilestone (k + pre.length) m2 = Except.error e →
    validateFrom k (pre ++ m2 :: post) = Except.error e := by
  intro pre
  induction pre with
  | nil =>
    intro k m m2 post e hok herr
    rw [List.length_nil, Nat.add_zero] at herr
    simp only [List.nil_append, validateFrom, herr]
  | cons p pre ih =>
    intro k m m2 post e hok herr
    simp only [List.cons_append, validateFrom] at hok ⊢
    cases hc : checkMilestone k p with
    | error e2 => rw [hc] at hok; simp at hok
    | ok u =>
      rw [hc] at hok
      have herr2 : checkMilestone ((k + 1) + pre.length) m2 = Except.error e := by
        rw [show (k + 1) + pre.length = k + (p :: pre).length from by
          simp [List.length_cons]; omega]
        exact herr
      exact ih (k + 1) m m2 post e hok herr2

/-- C4: the milestone validator accepts exactly when every element carries
all nine required fields with an acceptable type, and removing any one
required field from any milestone flips acceptance to a rejection whose
message names the offending field and the (1-based) index of the offending
milestone. -/
theorem milestone_validator_correct :
    (∀ ms, validateMilestones ms = Except.ok () ↔ ∀ m ∈ ms, milestoneOk m)
    ∧ (∀ (pre : List Json) (m : Json) (post : List Json) (f : String) (ty : FieldType),
        (f, ty) ∈ requiredFields →
        validateMilestones (pre ++ m :: post) = Except.ok () →
        validateMilestones (pre ++ removeMilestoneField f m :: post) =
          Except.error (missingMsg f pre.length)) := by
  constructor
  · intro ms
    exact validateFrom_ok_iff ms 0
  · intro pre m post f ty hmem hok
    have hm : checkMilestone (0 + pre.length) m = Except.ok () :=
      validateFrom_append_ok pre 0 m post hok
    cases m with
    | obj fields =>
      have herase : checkMilestone (0 + pre.length) (removeMilestoneField f (Json.obj fields)) =
          Except.error (missingMsg f (0 + pre.length)) := by
        simp only [removeMilestoneField, checkMilestone]
        exact checkFieldList_erase _ _ _ _ requiredFields hmem (by simpa [checkMilestone] using hm)
      have := validateFrom_mod pre 0 (Json.obj fields) (removeMilestoneField f (Json.obj fields))
        post (missingMsg f (0 + pre.length)) hok herase
      simpa [Nat.zero_add] using this
    | null => simp [checkMilestone] at hm
    | bool b => simp [checkMilestone] at hm
    | int n => simp [checkMilestone] at hm
    | float q => simp [checkMilestone] at hm
    | str s => simp [checkMilestone] at hm
    | arr l => simp [checkMilestone] at hm

/-- Witness for C4: the removal clause applied at a concrete fully-valid
milestone with the tasks field removed. -/
theorem milestone_validator_witness :
    validateMilestones [removeMilestoneField "tasks" sampleMilestone] =
      Except.error (missingMsg "tasks" 0) :=
  milestone_validator_correct.2 [] sampleMilestone [] "tasks" FieldType.listType
    (by decide) (by rfl)

/-- Python "s".split(sep, 1)[-1] for sep a colon: everything after the first
colon, or the whole string when there is none. -/
def afterFirstColon : List Char → Option (List Char)
  | [] => none
  | c :: cs => if c = ':' then some cs else afterFirstColon cs

def splitColonLast (cs : List Char) : List Char :=
  (afterFirstColon cs).getD cs

/-- The new title built at line 721 of extend_learning_plan. -/
def rebuiltTitle (i : Nat) (old : String) : String :=
  "Week " ++ toString i ++ ": " ++ String.mk (pyStrip (splitColonLast old.toList))

/-- Python milestone.get('title','') followed by .split: an absent title
reads as the empty string, a non-string title makes .split raise
(modelled none, aborting the extension). -/
def titleTail : Option Json → Option String
  | none => some ""
  | some (Json.str t) => some t
  | some _ => none

/-- Lines 717-721 of extend_learning_plan for one new milestone: set week
to i, rebuild the title.  A non-dict milestone is left unchanged because
the Python loop rebinds its local name to a fresh dict while the list
element keeps its old value. -/
def adjustOne (i : Nat) : Json → Option Json
  | Json.obj fields =>
    let fields2 := setField "week" (Json.int i) fields
    match titleTail (lookupField fields2 "title") with
    | some t => some (Json.obj (setField "title" (Json.str (rebuiltTitle i t)) fields2))
    | none => none
  | m => some m

/-- The enumerate(new_milestones, start=current_weeks + 1) loop. -/
def adjustWeeks (i : Nat) : List Json → Option (List Json)
  | [] => some []
  | m :: rest =>
    match adjustOne i m with
    | some m2 =>
      match adjustWeeks (i + 1) rest with
      | some rest2 => some (m2 :: rest2)
      | none => none
    | none => none

/-- Lines 716-724 of extend_learning_plan: renumber the generated milestones
starting at current length + 1 and append them to the existing sequence. -/
def extendMilestones (currentMilestones newMilestones : List Json) : Option (List Json) :=
  match adjustWeeks (currentMilestones.length + 1) newMilestones with
  | some adjusted => some (currentMilestones ++ adjusted)
  | none => none

/-- Lines 727-729: the stored duration is kept when numeric (a Python bool
counts as numeric, 1 for True) and non-negative, else replaced by 0. -/
def sanitizeDuration : Option Json → Rat
  | some (Json.int n) => if (n : Rat) < 0 then 0 else (n : Rat)
  | some (Json.float q) => if q < 0 then 0 else q
  | some (Json.bool b) => if b then 1 else 0
  | _ => 0

/-- Line 731: new_duration = current + additional_weeks // 4 + (1 if
additional_weeks % 4 > 0 else 0). -/
def extendDuration (stored : Option Json) (additionalWeeks : Nat) : Rat :=
  sanitizeDuration stored + ((additionalWeeks / 4 : Nat) : Rat) +
    (if additionalWeeks % 4 > 0 then 1 else 0)

/-- The week field of a milestone object. -/
def weekOf : Json → Option Json
  | Json.obj fields => lookupField fields "week"
  | _ => none

theorem lookupField_setField_self (fields : List (String × Json)) (k : String) (v : Json) :
    lookupField (setField k v fields) k = some v := by
  induction fields with
  | nil => simp [setField, lookupField]
  | cons kv rest ih =>
    obtain ⟨k2, v2⟩ := kv
    by_cases h : k2 = k
    · simp [setField, h, lookupField]
    · simp [setField, h, lookupField, ih]

theorem lookupField_setField_ne (fields : List (String × Json)) (k g : String) (v : Json)
    (hne : g ≠ k) : lookupField (setField k v fields) g = lookupField fields g := by
  have hkg : ¬ (k = g) := fun h => hne h.symm
  induction fields with
  | nil => simp [setField, lookupField, hkg]
  | cons kv rest ih =>
    obtain ⟨k2, v2⟩ := kv
    by_cases h : k2 = k
    · have hk2g : ¬ (k2 = g) := fun h2 => hkg (h ▸ h2)
      simp [setField, h, lookupField, hkg, hk2g]
    · simp [setField, h, lookupField, ih]

/-- What a freshly generated milestone must look like for the renumbering
loop not to raise: a dict whose title, when present, is a string. -/
def goodNewMilestone (m : Json) : Prop :=
  ∃ fields, m = Json.obj fields ∧ ∃ t, titleTail (lookupField fields "title") = some t

theorem adjustOne_ok (i : Nat) (m : Json) (h : goodNewMilestone m) :
    ∃ m2, adjustOne i m = some m2 ∧ weekOf m2 = some (Json.int i) := by
  obtain ⟨fields, rfl, t, ht⟩ := h
  have hlk : lookupField (setField "week" (Json.int i) fields) "title" =
      lookupField fields "title" :=
    lookupField_setField_ne fields "week" "title" (Json.int i) (by decide)
  refine ⟨Json.obj (setField "title" (Json.str (rebuiltTitle i t))
      (setField "week" (Json.int i) fields)), ?_, ?_⟩
  · simp only [adjustOne, hlk, ht]
  · show lookupField (setField "title" (Json.str (rebuiltTitle i t))
        (setField "week" (Json.int i) fields)) "week" = some (Json.int i)
    rw [lookupField_setField_ne _ "title" "week" _ (by decide), lookupField_setField_self]

theorem adjustWeeks_ok : ∀ (new : List Json) (i : Nat),
    (∀ m ∈ new, goodNewMilestone m) →
    ∃ adj, adjustWeeks i new = some adj ∧ adj.length = new.length ∧
      ∀ j, j < new.length → Option.bind adj[j]? weekOf = some (Json.int (i + j)) := by
  intro new
  induction new with
  | nil =>
    intro i h
    exact ⟨[], rfl, rfl, by intro j hj; simp at hj⟩
  | cons m rest ih =>
    intro i h
    obtain ⟨m2, hm2, hweek⟩ := adjustOne_ok i m (h m (by simp))
    obtain ⟨adj, hadj, hlen, hweeks⟩ := ih (i + 1) (fun x hx => h x (by simp [hx]))
    refine ⟨m2 :: adj, ?_, by simp [hlen], ?_⟩
    · simp only [adjustWeeks, hm2, hadj]
    · intro j hj
      cases j with
      | zero => simpa using hweek
      | succ j2 =>
        have hj2 : j2 < rest.length := by simpa using hj
        have harith : (i : Int) + ((j2 + 1 : Nat) : Int) = ((i + 1 : Nat) : Int) + (j2 : Int) := by
          omega
        rw [List.getElem?_cons_succ]
        rw [show some (Json.int ((i : Int) + ((j2 + 1 : Nat) : Int))) =
          some (Json.int (((i + 1 : Nat) : Int) + (j2 : Int))) from by rw [harith]]
        exact hweeks j2 hj2

/-- C1: for a stored plan whose milestone weeks are 1..n and k newly
generated milestone dicts, the extension renumbers the new milestones to
n+1..n+k and appends them, so the whole sequence is numbered contiguously
1..n+k with the prefix unchanged, and the recomputed duration is the
existing value plus ceil(k/4). -/
theorem extend_plan_renumbers_and_duration :
    (∀ (cur new : List Json),
        (∀ m ∈ new, goodNewMilestone m) →
        (∀ j, j < cur.length → Option.bind cur[j]? weekOf = some (Json.int (j + 1))) →
        ∃ result, extendMilestones cur new = some result ∧
          result.length = cur.length + new.length ∧
          (∀ j, j < cur.length → result[j]? = cur[j]?) ∧
          (∀ j, j < cur.length + new.length →
            Option.bind result[j]? weekOf = some (Json.int (j + 1))))
    ∧ (∀ (d : Int) (k : Nat), 0 ≤ d →
        extendDuration (some (Json.int d)) k = (d : Rat) + (((k + 3) / 4 : Nat) : Rat)) := by
  constructor
  · intro cur new hgood hcur
    obtain ⟨adj, hadj, hlen, hweeks⟩ := adjustWeeks_ok new (cur.length + 1) hgood
    refine ⟨cur ++ adj, ?_, by simp [hlen], ?_, ?_⟩
    · simp only [extendMilestones, hadj]
    · intro j hj
      rw [List.getElem?_append, if_pos hj]
    · intro j hj
      by_cases hjc : j < cur.length
      · rw [List.getElem?_append, if_pos hjc]
        exact hcur j hjc
      · push_neg at hjc
        have ht : j - cur.length < new.length := by omega
        rw [List.getElem?_append, if_neg (not_lt.mpr hjc)]
        have hw := hweeks (j - cur.length) ht
        rw [hw]
        have harith : ((cur.length + 1 : Nat) : Int) + ((j - cur.length : Nat) : Int) =
            (j : Int) + 1 := by omega
        rw [harith]
  · intro d k hd
    have hnat : k / 4 + (if k % 4 > 0 then 1 else 0) = (k + 3) / 4 := by
      by_cases h : k % 4 > 0
      · rw [if_pos h]; omega
      · rw [if_neg h]; omega
    simp only [extendDuration, sanitizeDuration]
    rw [if_neg (not_lt.mpr (Int.cast_nonneg.mpr hd)), ← hnat]
    by_cases h : k % 4 > 0
    · simp [h]
      ring
    · simp [h]

/-- A stored milestone carrying only its week number. -/
def weekObj (n : Int) : Json := Json.obj [("week", Json.int n)]

/-- A freshly generated milestone as the model emits it. -/
def genMilestone (title : String) : Json :=
  Json.obj [("week", Json.int 1), ("title", Json.str title)]

def cur4 : List Json := [weekObj 1, weekObj 2, weekObj 3, weekObj 4]

def new3 : List Json :=
  [genMilestone "Week 1: A", genMilestone "Week 2: B", genMilestone "Week 3: C"]

/-- Witness for C1: a 4-week plan extended by 3 weeks has its fifth
milestone numbered 5, and duration grows by ceil(3/4) = 1 month (2 becomes
3). -/
theorem extend_plan_witness :
    Option.bind (((extendMilestones cur4 new3).getD [])[4]?) weekOf = some (Json.int 5)
    ∧ extendDuration (some (Json.int 2)) 3 = 3 := by
  constructor
  · obtain ⟨result, h1, hlen, hpre, hweeks⟩ :=
      extend_plan_renumbers_and_duration.1 cur4 new3
        (by
          intro m hm
          simp only [new3, List.mem_cons, List.mem_singleton] at hm
          rcases hm with rfl | rfl | rfl | hm
          · exact ⟨_, rfl, _, rfl⟩
          · exact ⟨_, rfl, _, rfl⟩
          · exact ⟨_, rfl, _, rfl⟩
          · simp at hm)
        (by
          intro j hj
          have hj4 : j < 4 := by simpa [cur4] using hj
          interval_cases j <;> rfl)
    rw [h1]
    have h5 := hweeks 4 (by simp [cur4, new3])
    simpa using h5
  · have hd := extend_plan_renumbers_and_duration.2 2 3 (by norm_num)
    rw [hd]
    norm_num

/-- The outcome of the intent dispatch of handle_agent_request. -/
inductive DispatchResult where
  | createItem
  | generatePlan
  | answer (text : Json)
  | clientError (detail : String)

/-- Python str() of the intent value as interpolated into the
unknown-intent message (container and float reprs abbreviated). -/
def pyStr : Option Json → String
  | none => "None"
  | some Json.null => "None"
  | some (Json.str s) => s
  | some (Json.int n) => toString n
  | some (Json.bool b) => if b then "True" else "False"
  | some (Json.float _) => "float"
  | some (Json.arr _) => "list"
  | some (Json.obj _) => "dict"

/-- Python `value == "literal"` for a .get result: true only for that very
string. -/
def isStrVal (v : Option Json) (s : String) : Bool :=
  match v with
  | some (Json.str t) => t = s
  | _ => false

/-- Intent dispatch of handle_agent_request (lines 540-557): create_item
and generate_learning_plan go to their handlers, answer_question is a
pass-through answer with a default text; anything else — analyze_data has
no branch — raises the 400 unknown-intent error. -/
def dispatchIntent (parsed : List (String × Json)) : DispatchResult :=
  let intent := lookupField parsed "intent"
  if isStrVal intent "create_item" then DispatchResult.createItem
  else if isStrVal intent "generate_learning_plan" then DispatchResult.generatePlan
  else if isStrVal intent "answer_question" then
    DispatchResult.answer
      ((lookupField parsed "answer").getD (Json.str "I couldn\x27t generate a proper response."))
  else DispatchResult.clientError ("Unknown intent: " ++ pyStr intent)

/-- C2 counterexample: an analyze_data envelope is not given a pass-through
response — it falls into the unknown-intent client error branch. -/
theorem analyze_data_not_passthrough :
    dispatchIntent [("intent", Json.str "analyze_data")] =
      DispatchResult.clientError "Unknown intent: analyze_data" := rfl

/-- C2 (amended): create_item, generate_learning_plan and answer_question
route as stated; every other intent value — analyze_data included — and a
missing intent yield the unknown-intent client error naming the offending
intent, never a silent no-op. -/
theorem dispatch_routing (parsed : List (String × Json)) :
    (lookupField parsed "intent" = some (Json.str "create_item") →
      dispatchIntent parsed = DispatchResult.createItem)
    ∧ (lookupField parsed "intent" = some (Json.str "generate_learning_plan") →
      dispatchIntent parsed = DispatchResult.generatePlan)
    ∧ (lookupField parsed "intent" = some (Json.str "answer_question") →
      dispatchIntent parsed = DispatchResult.answer
        ((lookupField parsed "answer").getD
          (Json.str "I couldn\x27t generate a proper response.")))
    ∧ (∀ s, lookupField parsed "intent" = some (Json.str s) →
        s ≠ "create_item" → s ≠ "generate_learning_plan" → s ≠ "answer_question" →
        dispatchIntent parsed = DispatchResult.clientError ("Unknown intent: " ++ s))
    ∧ (lookupField parsed "intent" = none →
      dispatchIntent parsed = DispatchResult.clientError "Unknown intent: None") := by
  refine ⟨?_, ?_, ?_, ?_, ?_⟩
  · intro h
    simp [dispatchIntent, h, isStrVal]
  · intro h
    simp [dispatchIntent, h, isStrVal]
  · intro h
    simp [dispatchIntent, h, isStrVal]
  · intro s h h1 h2 h3
    simp [dispatchIntent, h, isStrVal, h1, h2, h3, pyStr]
  · intro h
    simp [dispatchIntent, h, isStrVal, pyStr]

/-- Witness for C2 (amended): the routing applied at three concrete
envelopes. -/
theorem dispatch_routing_witness :
    dispatchIntent [("intent", Json.str "create_item")] = DispatchResult.createItem
    ∧ dispatchIntent [("intent", Json.str "frobnicate")] =
        DispatchResult.clientError "Unknown intent: frobnicate"
    ∧ dispatchIntent [] = DispatchResult.clientError "Unknown intent: None" := by
  refine ⟨?_, ?_, ?_⟩
  · exact (dispatch_routing [("intent", Json.str "create_item")]).1 (by rfl)
  · exact (dispatch_routing [("intent", Json.str "frobnicate")]).2.2.2.1 "frobnicate"
      (by rfl) (by decide) (by decide) (by decide)
  · exact (dispatch_routing []).2.2.2.2 (by rfl)

/-- Cleaning, parsing and validation applied to the model text inside
generate_learning_milestones (lines 214-263). -/
def processMilestoneText (txt : String) : Except String (List Json) :=
  match extractMilestoneArray txt with
  | Except.ok ms =>
    match validateMilestones ms with
    | Except.ok _ => Except.ok ms
    | Except.error e => Except.error e
  | Except.error e => Except.error e

/-- The invocation section of generate_learning_milestones (lines 203-212),
against an oracle giving each successive invocation's outcome (none is a
raised/timed-out call).  Only an invocation failure triggers the single
inner fallback; a processing failure of returned text does not.  Returns
the outcome and the next invocation index. -/
def milestoneChain (oracle : Nat → Option String) (k : Nat) :
    Except String (List Json) × Nat :=
  match oracle k with
  | some txt => (processMilestoneText txt, k + 1)
  | none =>
    match oracle (k + 1) with
    | some txt => (processMilestoneText txt, k + 2)
    | none => (Except.error "Failed to generate learning plan", k + 2)

/-- handle_generate_learning_plan lines 788-813: one milestoneChain attempt
with the specialist model and, when the whole attempt fails, one more with
the fallback model; the invocation counter runs across both. -/
def planChain (oracle : Nat → Option String) : Except String (List Json) × Nat :=
  let r1 := milestoneChain oracle 0
  match r1.1 with
  | Except.ok ms => (Except.ok ms, r1.2)
  | Except.error _ => milestoneChain oracle r1.2

/-- C5 counterexample: when every invocation fails, one plan-generation
request performs four model invocations — two inside each of the two
handler-level attempts — exceeding the claimed at-most-two per request. -/
theorem plan_request_four_invocations :
    (planChain (fun _ => none)).2 = 4 ∧ ¬ ((planChain (fun _ => none)).2 ≤ 2) :=
  ⟨rfl, by decide⟩

theorem milestoneChain_counter_le (oracle : Nat → Option String) (k : Nat) :
    (milestoneChain oracle k).2 ≤ k + 2 := by
  unfold milestoneChain
  cases h1 : oracle k with
  | some txt => simp
  | none =>
    cases h2 : oracle (k + 1) with
    | some txt => simp
    | none => simp

/-- C5 (amended): each generate_learning_milestones call invokes the model
at most twice (primary plus at most one fallback); the plan handler may run
that chain twice, so a single request performs at most four — not two —
invocations. -/
theorem model_invocation_counts :
    (∀ (oracle : Nat → Option String) (k : Nat), (milestoneChain oracle k).2 - k ≤ 2)
    ∧ (∀ (oracle : Nat → Option String), (planChain oracle).2 ≤ 4) := by
  constructor
  · intro oracle k
    have := milestoneChain_counter_le oracle k
    omega
  · intro oracle
    unfold planChain
    cases hr : (milestoneChain oracle 0).1 with
    | ok ms =>
      simp only
      have h0 := milestoneChain_counter_le oracle 0
      split
      · omega
      · have h2 := milestoneChain_counter_le oracle (milestoneChain oracle 0).2
        omega
    | error e =>
      simp only
      have h0 := milestoneChain_counter_le oracle 0
      split
      · omega
      · have h2 := milestoneChain_counter_le oracle (milestoneChain oracle 0).2
        omega

/-- Python regex \s (ASCII range). -/
def isReWs (c : Char) : Bool :=
  c = ' ' || c = '\t' || c = '\n' || c = '\r' || c = '\x0b' || c = '\x0c'

/-- One attempt of the pattern digits-whitespace-week (IGNORECASE) at the
current position; the digit run is maximal, since giving digits back can
never make the rest of this pattern match. -/
def matchWeekAt (cs : List Char) : Option Nat :=
  let (ds, rest) := takeDigits cs
  if ds.isEmpty then none
  else
    let rest2 := rest.dropWhile isReWs
    if (rest2.take 4).map Char.toLower = "week".toList then some (digitsToNat ds)
    else none

/-- re.search of the week pattern (line 776): the leftmost matching position
wins. -/
def searchWeek : List Char → Option Nat
  | [] => none
  | c :: cs =>
    match matchWeekAt (c :: cs) with
    | some n => some n
    | none => searchWeek cs

/-- Python substring membership, for the `"week" in duration_text.lower()`
guard at line 774. -/
def containsSub (pat : List Char) : List Char → Bool
  | [] => pat.isEmpty
  | c :: cs => if List.isPrefixOf pat (c :: cs) then true else containsSub pat cs

/-- Lines 772-783 of handle_generate_learning_plan: start from
duration_months * 4; when the duration text mentions "week" a regex-parsed
week count overrides it; finally the monthly minimum is re-imposed. -/
def computeNumWeeks (durationMonths : Nat) (durationText : String) : Nat :=
  let base := durationMonths * 4
  let n1 :=
    if containsSub ("week".toList) (durationText.toList.map Char.toLower) then
      match searchWeek durationText.toList with
      | some w => w
      | none => base
    else base
  if n1 < base then base else n1

/-- The week phrase of the claim: present when the lowered text contains
"week" and the regex search finds digits before one. -/
def weekPhrase (durationText : String) : Option Nat :=
  if containsSub ("week".toList) (durationText.toList.map Char.toLower) then
    searchWeek durationText.toList
  else none

theorem computeNumWeeks_eq (dm : Nat) (t : String) :
    computeNumWeeks dm t =
      match weekPhrase t with
      | some w => max (dm * 4) w
      | none => dm * 4 := by
  unfold computeNumWeeks weekPhrase
  by_cases hc : containsSub ("week".toList) (t.toList.map Char.toLower)
  · simp only [hc, if_true]
    cases hs : searchWeek t.toList with
    | none => simp
    | some w =>
      simp only
      by_cases h : w < dm * 4
      · rw [if_pos h, Nat.max_eq_left (Nat.le_of_lt h)]
      · rw [if_neg h, Nat.max_eq_right (Nat.le_of_not_lt h)]
  · simp only [hc, if_false]
    simp

/-- C6: the requested week count is the larger of duration_months * 4 and
the parsed week phrase; with no phrase it is exactly duration_months * 4,
the monthly minimum is never undercut, and 2 months with text "2 months"
requests exactly 8 milestones. -/
theorem num_weeks_is_max :
    (∀ (dm : Nat) (t : String),
        computeNumWeeks dm t =
          match weekPhrase t with
          | some w => max (dm * 4) w
          | none => dm * 4)
    ∧ computeNumWeeks 2 "2 months" = 8
    ∧ (∀ (dm : Nat) (t : String), dm * 4 ≤ computeNumWeeks dm t) := by
  refine ⟨computeNumWeeks_eq, by rfl, ?_⟩
  intro dm t
  rw [computeNumWeeks_eq]
  cases weekPhrase t with
  | none => exact Nat.le_refl _
  | some w => exact Nat.le_max_left _ _

/-- The paired local and UTC ISO renderings pendulum produces for one
parsed date in the fixed zone. -/
structure DateNorm where
  utcIso : String
  localIso : String

/-- Python truthiness of a JSON value, as the item_data.get(...) guards use
it. -/
def jsonTruthy : Json → Bool
  | Json.null => false
  | Json.bool b => b
  | Json.int n => n != 0
  | Json.float q => q != 0
  | Json.str s => s ≠ ""
  | Json.arr l => !l.isEmpty
  | Json.obj l => !l.isEmpty

/-- pendulum.parse applied to a field value: only strings can parse;
passing anything else raises, which the surrounding try/except treats just
like a parse failure. -/
def parseDateField (parse : String → Option DateNorm) : Json → Option DateNorm
  | Json.str s => parse s
  | _ => none

/-- The truthy-guarded read `if item_data.get(field):` of lines 595-628. -/
def truthyGet (data : List (String × Json)) (f : String) : Option Json :=
  match lookupField data f with
  | some v => if jsonTruthy v then some v else none
  | none => none

/-- Lines 595-606: a task due date is normalized into the four derived
fields and the source field deleted; on a parse failure only the deletion
happens (the except branch), so the record goes on without it. -/
def normalizeTaskDate (parse : String → Option DateNorm)
    (data : List (String × Json)) : List (String × Json) :=
  match truthyGet data "due_absolute_iso" with
  | some v =>
    match parseDateField parse v with
    | some d =>
      eraseField "due_absolute_iso"
        (setField "due_date" (Json.str d.utcIso)
          (setField "timezone" (Json.str "Asia/Kolkata")
            (setField "due_date_local" (Json.str d.localIso)
              (setField "due_date_utc" (Json.str d.utcIso) data))))
    | none => eraseField "due_absolute_iso" data
  | none => data

/-- Lines 608-616 and 628-633: commitment start/end and goal deadline are
replaced in place by the UTC rendering when parseable; a parse failure only
prints, leaving the raw value in the record. -/
def normalizeFieldInPlace (parse : String → Option DateNorm) (f : String)
    (data : List (String × Json)) : List (String × Json) :=
  match truthyGet data f with
  | some v =>
    match parseDateField parse v with
    | some d => setField f (Json.str d.utcIso) data
    | none => data
  | none => data

/-- Lines 618-626: a reminder due date becomes the four derived fields; a
parse failure only prints, leaving the raw value. -/
def normalizeReminderDate (parse : String → Option DateNorm)
    (data : List (String × Json)) : List (String × Json) :=
  match truthyGet data "due_date" with
  | some v =>
    match parseDateField parse v with
    | some d =>
      setField "due_date" (Json.str d.utcIso)
        (setField "timezone" (Json.str "Asia/Kolkata")
          (setField "due_date_local" (Json.str d.localIso)
            (setField "due_date_utc" (Json.str d.utcIso) data)))
    | none => data
  | none => data

/-- The date handling of handle_create_item (lines 594-633), per item
type. -/
def processItemDates (parse : String → Option DateNorm) (itemType : String)
    (data : List (String × Json)) : List (String × Json) :=
  if itemType = "task" then normalizeTaskDate parse data
  else if itemType = "commitment" then
    normalizeFieldInPlace parse "end_time" (normalizeFieldInPlace parse "start_time" data)
  else if itemType = "reminder" then normalizeReminderDate parse data
  else if itemType = "goal" then normalizeFieldInPlace parse "deadline" data
  else data

/-- C7 counterexample: an unparseable reminder due date is not dropped —
the raw value stays in the record that is then inserted. -/
theorem reminder_bad_date_kept :
    lookupField
      (processItemDates (fun _ => none) "reminder" [("due_date", Json.str "not-a-date")])
      "due_date" = some (Json.str "not-a-date") := rfl

/-- C7 (amended): a date-parse failure is never terminal — a record is
produced and inserted for every item type — but only the task path drops
the offending field; commitment, reminder and goal keep the raw
unparseable value in the inserted record. -/
theorem date_parse_failure_handling :
    (∀ (parse : String → Option DateNorm) (data : List (String × Json)) (v : Json),
        lookupField data "due_absolute_iso" = some v → jsonTruthy v = true →
        (∀ s, parse s = none) →
        lookupField (processItemDates parse "task" data) "due_absolute_iso" = none)
    ∧ (∀ (parse : String → Option DateNorm) (data : List (String × Json)) (ty : String),
        (ty = "commitment" ∨ ty = "reminder" ∨ ty = "goal") →
        (∀ s, parse s = none) →
        processItemDates parse ty data = data) := by
  have hpd : ∀ (parse : String → Option DateNorm), (∀ s, parse s = none) →
      ∀ v, parseDateField parse v = none := by
    intro parse hfail v
    cases v <;> simp [parseDateField, hfail]
  have hinplace : ∀ (parse : String → Option DateNorm) (f : String) data,
      (∀ s, parse s = none) → normalizeFieldInPlace parse f data = data := by
    intro parse f data hfail
    unfold normalizeFieldInPlace
    cases h1 : truthyGet data f with
    | none => rfl
    | some v => simp [hpd parse hfail v]
  constructor
  · intro parse data v hlk htr hfail
    have htr2 : truthyGet data "due_absolute_iso" = some v := by
      simp [truthyGet, hlk, htr]
    have hred : processItemDates parse "task" data = normalizeTaskDate parse data := by
      simp [processItemDates]
    rw [hred]
    unfold normalizeTaskDate
    rw [htr2]
    simp [hpd parse hfail v, lookupField_eraseField_self]
  · intro parse data ty hty hfail
    rcases hty with rfl | rfl | rfl
    · have hred : processItemDates parse "commitment" data =
          normalizeFieldInPlace parse "end_time" (normalizeFieldInPlace parse "start_time" data) := by
        simp [processItemDates]
      rw [hred, hinplace parse "start_time" data hfail, hinplace parse "end_time" data hfail]
    · have hred : processItemDates parse "reminder" data = normalizeReminderDate parse data := by
        simp [processItemDates]
      rw [hred]
      unfold normalizeReminderDate
      cases h1 : truthyGet data "due_date" with
      | none => rfl
      | some v => simp [hpd parse hfail v]
    · have hred : processItemDates parse "goal" data =
          normalizeFieldInPlace parse "deadline" data := by
        simp [processItemDates]
      rw [hred]
      exact hinplace parse "deadline" data hfail

/-- Witness for C7 (amended): a concrete unparseable task date is dropped
while a concrete unparseable goal deadline is kept verbatim. -/
theorem date_parse_failure_witness :
    lookupField (processItemDates (fun _ => none) "task"
      [("title", Json.str "t"), ("due_absolute_iso", Json.str "garbage")])
      "due_absolute_iso" = none
    ∧ processItemDates (fun _ => none) "goal" [("deadline", Json.str "garbage")] =
        [("deadline", Json.str "garbage")] := by
  constructor
  · exact date_parse_failure_handling.1 (fun _ => none)
      [("title", Json.str "t"), ("due_absolute_iso", Json.str "garbage")]
      (Json.str "garbage") (by rfl) (by decide) (fun _ => rfl)
  · exact date_parse_failure_handling.2 (fun _ => none)
      [("deadline", Json.str "garbage")] "goal" (by simp) (fun _ => rfl)

/-- The enrichment collaborator behaviour as the fire-and-forget trigger
sees it: a delivered post, a raised transport error, or no response within
the 5 second budget. -/
inductive EnrichOutcome where
  | delivered
  | failed (msg : String)
  | timedOut

/-- trigger_grocery_enrichment (lines 82-98): the whole call sits in
try/except, so every collaborator outcome ends in a normal return carrying
at most a log line; an Except.error would model an escaped exception,
which the except clause makes impossible. -/
def triggerGroceryEnrichment : EnrichOutcome → Except String (List String)
  | EnrichOutcome.delivered => Except.ok []
  | EnrichOutcome.failed m =>
      Except.ok ["Grocery enrichment failed (non-critical): " ++ m]
  | EnrichOutcome.timedOut =>
      Except.ok ["Grocery enrichment failed (non-critical): timeout"]

structure CreationResponse where
  rtype : String
  item : List (String × Json)
  message : String

/-- The creation_success envelope of handle_create_item (lines 649-656),
built from the created record alone; the message interpolates
created_item.get('title') or created_item.get('item_name') with Python
or-semantics. -/
def creationResponse (itemType : String) (createdItem : List (String × Json)) :
    CreationResponse :=
  { rtype := "creation_success"
    item := createdItem
    message := "Successfully created " ++ itemType ++ ": " ++
      pyStr (match lookupField createdItem "title" with
             | some t => if jsonTruthy t then some t else lookupField createdItem "item_name"
             | none => lookupField createdItem "item_name") }

/-- The post-insert step of handle_create_item (lines 643-656): the
enrichment event fires exactly for groceries (asyncio.create_task), its
outcome contributes only log lines, and the response is computed from the
record alone. -/
def finishCreateItem (itemType : String) (createdItem : List (String × Json))
    (enrichOutcome : EnrichOutcome) :
    CreationResponse × List (List (String × Json)) × List String :=
  let events := if itemType = "grocery" then [createdItem] else []
  let logs :=
    if itemType = "grocery" then
      match triggerGroceryEnrichment enrichOutcome with
      | Except.ok ls => ls
      | Except.error e => [e]
    else []
  (creationResponse itemType createdItem, events, logs)

/-- C8: the enrichment trigger never raises — every collaborator outcome is
swallowed into a normal return with at most a log line; the creation
response is identical whether the enrichment succeeds, fails or never
responds; and the enrichment event is emitted iff the created item type is
grocery. -/
theorem grocery_enrichment_contract :
    (∀ o, ∃ logs, triggerGroceryEnrichment o = Except.ok logs)
    ∧ (∀ ty item o1 o2,
        (finishCreateItem ty item o1).1 = (finishCreateItem ty item o2).1)
    ∧ (∀ ty item o, (finishCreateItem ty item o).2.1 = [item] ↔ ty = "grocery") := by
  refine ⟨?_, ?_, ?_⟩
  · intro o
    cases o with
    | delivered => exact ⟨_, rfl⟩
    | failed m => exact ⟨_, rfl⟩
    | timedOut => exact ⟨_, rfl⟩
  · intro ty item o1 o2
    rfl
  · intro ty item o
    by_cases h : ty = "grocery" <;> simp [finishCreateItem, h]

/-- One synthesized first-week task record (lines 291-307); the due dates
come from now + (index + 1) days, supplied by the two rendering
functions. -/
def firstWeekTask (userId : String) (dueUtc dueLocal : Nat → String)
    (firstTitle : String) (i : Nat) (td : Json) : List (String × Json) :=
  [("user_id", Json.str userId),
   ("title", td),
   ("description", Json.str ("Part of learning plan: " ++ firstTitle)),
   ("priority", Json.int 2),
   ("estimate", Json.int 45),
   ("due_date_utc", Json.str (dueUtc (i + 1))),
   ("due_date_local", Json.str (dueLocal (i + 1))),
   ("timezone", Json.str "Asia/Kolkata"),
   ("tags", Json.arr [Json.str "learning", Json.str "auto-generated"]),
   ("status", Json.str "Inbox")]

/-- The task list built for the first milestone (lines 285-307).  A
non-dict first milestone makes the Python attribute access raise, escaping
the helper (none); the validated milestones are always dicts. -/
def buildFirstWeekTasks (userId : String) (dueUtc dueLocal : Nat → String) :
    List Json → Option (List (List (String × Json)))
  | [] => some []
  | Json.obj fields :: _ =>
    let firstTitle :=
      match lookupField fields "title" with
      | some v => pyStr (some v)
      | none => "Week 1"
    let tasks :=
      match lookupField fields "tasks" with
      | some (Json.arr l) => l
      | _ => []
    some (tasks.mapIdx (fun i td => firstWeekTask userId dueUtc dueLocal firstTitle i td))
  | _ :: _ => none

/-- create_first_week_tasks (lines 280-317): nothing to do for an empty
milestone list or an empty task list; the batch insert result is consulted
only when there are tasks, and an insert failure is swallowed into the
empty list (lines 309-315). -/
def createFirstWeekTasks (userId : String) (dueUtc dueLocal : Nat → String)
    (milestones : List Json) (insertResult : Except String (List Json)) :
    Option (List Json) :=
  match milestones with
  | [] => some []
  | _ :: _ =>
    match buildFirstWeekTasks userId dueUtc dueLocal milestones with
    | none => none
    | some tasks =>
      if tasks.isEmpty then some []
      else
        match insertResult with
        | Except.ok inserted => some inserted
        | Except.error _ => some []

structure PlanResponse where
  rtype : String
  planMilestones : List Json
  planId : Json
  createdTasksCount : Nat
  message : String

/-- Lines 850-871 of handle_generate_learning_plan, after the plan row has
been inserted: the plan_created response, whose count is the length of
whatever create_first_week_tasks returned. -/
def planCreatedResponse (planId : Json) (topic : String) (milestones : List Json)
    (createdTasks : List Json) : PlanResponse :=
  { rtype := "plan_created"
    planMilestones := milestones
    planId := planId
    createdTasksCount := createdTasks.length
    message := "Created learning plan for " ++ topic ++ " with " ++
      toString createdTasks.length ++ " tasks for the first week." }

/-- C10: a failing batch insert of the first-week tasks, or a first
milestone with no tasks, still produces the empty created-task list, and
the handler then returns the plan_created success response with
created_tasks_count 0 and the persisted milestones unchanged — the failure
never surfaces. -/
theorem first_week_task_failure_swallowed :
    (∀ (uid : String) (du dl : Nat → String) (fields : List (String × Json))
        (rest : List Json) (e : String),
        createFirstWeekTasks uid du dl (Json.obj fields :: rest) (Except.error e) = some [])
    ∧ (∀ (uid : String) (du dl : Nat → String) (ms : List Json)
        (res : Except String (List Json)),
        buildFirstWeekTasks uid du dl ms = some [] →
        createFirstWeekTasks uid du dl ms res = some [])
    ∧ (∀ (planId : Json) (topic : String) (ms : List Json),
        (planCreatedResponse planId topic ms []).rtype = "plan_created"
        ∧ (planCreatedResponse planId topic ms []).createdTasksCount = 0
        ∧ (planCreatedResponse planId topic ms []).planMilestones = ms) := by
  refine ⟨?_, ?_, ?_⟩
  · intro uid du dl fields rest e
    simp only [createFirstWeekTasks]
    cases hb : buildFirstWeekTasks uid du dl (Json.obj fields :: rest) with
    | none => exact absurd hb (by simp [buildFirstWeekTasks])
    | some tasks => by_cases ht : tasks.isEmpty <;> simp [ht]
  · intro uid du dl ms res hb
    cases ms with
    | nil => rfl
    | cons m rest =>
      simp only [createFirstWeekTasks, hb]
      simp
  · intro planId topic ms
    exact ⟨rfl, rfl, rfl⟩

/-- Witness for C10: with a first milestone that has no tasks, even an
available successful insert yields zero created tasks. -/
theorem first_week_task_witness :
    createFirstWeekTasks "u1" (fun _ => "") (fun _ => "") [Json.obj []]
      (Except.ok [Json.null]) = some [] :=
  first_week_task_failure_swallowed.2.1 "u1" (fun _ => "") (fun _ => "") [Json.obj []]
    (Except.ok [Json.null]) (by rfl)
